import Mathlib

/-!
# cloudkarafka-manager: topic store, admin gateway and JMX message count

A shallow embedding of `src/store/topics.go` and of `TopicMessageCount` in
`src/jmx/topics.go`, followed by the properties established about them.

Conventions of the embedding:

* Go's `int` is a 64-bit two's complement integer.  Values are carried as `Int`
  and every arithmetic result is brought back into range by `wrapInt`.
* A Go map is an association list; a lookup returns the first binding of the key
  and the zero value when there is none.  A `nil` map or slice is `none`.
* External collaborators (the coordination-store client, the admin client, the
  logger, the JMX offset query) are parameters of the embedded functions.  Calls
  to the admin client and to the logger are recorded in an explicit trace.
-/

namespace Store

/-! ## Machine integers -/

/-- Reduction of an integer to the range of Go's 64-bit `int`. -/
def wrapInt (x : Int) : Int := (x + 2 ^ 63) % 2 ^ 64 - 2 ^ 63

/-- Go's `a + b` on `int`. -/
def addInt (a b : Int) : Int := wrapInt (a + b)

/-- Go's `a - b` on `int`. -/
def subInt (a b : Int) : Int := wrapInt (a - b)

/-- The values an `int` can hold. -/
def InIntRange (x : Int) : Prop := -(2 ^ 63) ≤ x ∧ x < 2 ^ 63

instance (x : Int) : Decidable (InIntRange x) := by
  unfold InIntRange; exact inferInstance

/-! ## Data model (`src/store/topics.go`, lines 16-43) -/

/-- Go's `map[string]int`; `none` is the nil map. -/
abbrev IntMap := Option (List (String × Int))

/-- Go's `m[k]` on a `map[string]int`: the zero value when the key is absent. -/
def IntMap.get (m : IntMap) (k : String) : Int :=
  match m with
  | none => 0
  | some kvs => ((kvs.find? (fun kv => kv.1 == k)).map Prod.snd).getD 0

/-- Go's `len(m)` on a map: the number of distinct keys. -/
def mapLen {β : Type} (m : Option (List (String × β))) : Nat :=
  match m with
  | none => 0
  | some kvs => (kvs.map Prod.fst).dedup.length

/-- The struct `Partition`. -/
structure Partition where
  Leader : Int
  Replicas : Option (List Int)
  ISR : Option (List Int)
  LeaderEpoch : Int
  Version : Int
  ControllerEpoch : Int
  Metrics : IntMap
  deriving DecidableEq, Repr

/-- The zero value of `Partition`. -/
def Partition.zero : Partition :=
  { Leader := 0, Replicas := none, ISR := none, LeaderEpoch := 0, Version := 0,
    ControllerEpoch := 0, Metrics := none }

/-- Go's `interface{}` as it comes out of a JSON document. -/
inductive Value where
  | str (s : String)
  | num (n : Int)
  | bool (b : Bool)
  | null
  | arr (items : List Value)
  | obj (fields : List (String × Value))

/-- The struct `TopicConfig`. -/
structure TopicConfig where
  Version : Int
  Data : Option (List (String × Value))

/-- The struct `topic`. -/
structure topic where
  Name : String
  Partitions : List Partition
  Config : TopicConfig
  Deleted : Bool
  Metrics : IntMap

/-- The zero value `topic{}`. -/
def topic.zero : topic :=
  { Name := "", Partitions := [], Config := { Version := 0, Data := none },
    Deleted := false, Metrics := none }

/-! ## Derived metrics (`src/store/topics.go`, lines 45-58) -/

/-- The method `topic.Size`: `sum += p.Metrics["Size"]` over the partitions. -/
def topic.Size (t : topic) : Int :=
  t.Partitions.foldl (fun sum p => addInt sum (p.Metrics.get "Size")) 0

/-- The method `topic.Messages`:
`sum += p.Metrics["LogEndOffset"] - p.Metrics["LogStartOffset"]` over the partitions. -/
def topic.Messages (t : topic) : Int :=
  t.Partitions.foldl
    (fun sum p => addInt sum (subInt (p.Metrics.get "LogEndOffset") (p.Metrics.get "LogStartOffset")))
    0

/-- A partition that carries only a start and an end offset. -/
def offsetsPartition (start stop : Int) : Partition :=
  { Partition.zero with Metrics := some [("LogStartOffset", start), ("LogEndOffset", stop)] }

/-- The topic `orders` of the scenario: offsets (0,50), (0,40), (0,60). -/
def ordersTopic : topic :=
  { topic.zero with
    Name := "orders"
    Partitions := [offsetsPartition 0 50, offsetsPartition 0 40, offsetsPartition 0 60] }

/-! ## `strconv.Atoi` (Go standard library, used by `fetchTopic`) -/

/-- State of the digit loop of `strconv.ParseUint(s, 10, 64)`: the value read so far, or
the error with which the loop has already returned. -/
inductive ParseState where
  | ok (n : Nat)
  | syntaxErr
  | rangeErr
  deriving DecidableEq, Repr

/-- One iteration of the digit loop of `ParseUint` in base 10: a byte that is not a
decimal digit is a syntax error; `n >= cutoff` (`cutoff = maxUint64/10 + 1`) or an
overflowing `n*10 + d` is a range error. -/
def parseUintStep (st : ParseState) (c : Char) : ParseState :=
  match st with
  | .ok n =>
    if c.isDigit then
      if n ≥ 1844674407370955162 then .rangeErr
      else if n * 10 + (c.toNat - 48) > 2 ^ 64 - 1 then .rangeErr
      else .ok (n * 10 + (c.toNat - 48))
    else .syntaxErr
  | .syntaxErr => .syntaxErr
  | .rangeErr => .rangeErr

/-- The unsigned part of `ParseInt`, that is `strconv.ParseUint(s, 10, 64)`: the empty
string is a syntax error. -/
def ParseUint (cs : List Char) : ParseState :=
  if cs = [] then .syntaxErr else cs.foldl parseUintStep (.ok 0)

/-- Go's `strconv.Atoi` on a 64-bit platform, as the pair (value, error is non-nil).
The short-string fast path of `Atoi` computes the same pair as `ParseInt(s, 10, 0)`,
which is what is written here: an optional sign, then `ParseUint`; a syntax error
yields 0, a range error yields the nearest bound. -/
def Atoi (s : String) : Int × Bool :=
  match s.toList with
  | [] => (0, true)
  | c :: rest =>
    let neg : Bool := c == '-'
    let body := if c == '+' || c == '-' then rest else c :: rest
    match ParseUint body with
    | .syntaxErr => (0, true)
    | .rangeErr => if neg then (-(2 ^ 63), true) else (2 ^ 63 - 1, true)
    | .ok un =>
      if !neg && un ≥ 2 ^ 63 then (2 ^ 63 - 1, true)
      else if neg && un > 2 ^ 63 then (-(2 ^ 63), true)
      else (if neg then -(un : Int) else (un : Int), false)

/-! ## Errors and outcomes -/

/-- The struct `kafka.Error`: `Code()` and the message. -/
structure KafkaError where
  code : Int
  str : String
  deriving DecidableEq, Repr

/-- The constant `kafka.ErrNoError`. -/
def ErrNoError : Int := 0

/-- A non-nil value of Go's `error` interface: a `kafka.Error` or any other error. -/
inductive GoError where
  | kafka (e : KafkaError)
  | other (msg : String)
  deriving DecidableEq, Repr

/-- How a call ends: it returns a value or it panics. -/
inductive Outcome (α : Type) where
  | returned (a : α)
  | panicked
  deriving DecidableEq, Repr

/-! ## `fetchTopic` (`src/store/topics.go`, lines 92-118) -/

/-- The value `zookeeper.Topic` decodes.  `Partitions` is Go's `map[string][]int`,
listed in the order in which the `range` loop of `fetchTopic` visits it. -/
structure ZkTopic where
  Partitions : List (String × Option (List Int))

/-- Go's `len` of a map given by its bindings: the number of distinct keys. -/
def keysLen {β : Type} (kvs : List (String × β)) : Nat := (kvs.map Prod.fst).dedup.length

/-- The path `fmt.Sprintf("/brokers/topics/%s/partitions/%s/state", topicName, p)`. -/
def partitionPath (topicName p : String) : String :=
  "/brokers/topics/" ++ topicName ++ "/partitions/" ++ p ++ "/state"

/-- The assignment `t.Partitions[i] = par`: `none` is the index-out-of-range panic. -/
def storeAt (ps : List Partition) (i : Int) (par : Partition) : Option (List Partition) :=
  if 0 ≤ i ∧ i < ps.length then some (ps.set i.toNat par) else none

/-- The `range` loop of `fetchTopic` (lines 107-116).  `zkGet path` is the value that
`zookeeper.Get(path, &par)` decodes into `par`, or `none` when it returns an error. -/
def fetchLoop (zkGet : String → Option Partition) (topicName : String) :
    List (String × Option (List Int)) → List Partition → Option (List Partition)
  | [], ps => some ps
  | (p, replicas) :: rest, ps =>
    match zkGet (partitionPath topicName p) with
    | some par =>
      match storeAt ps (Atoi p).1 { par with Replicas := replicas, Metrics := some [] } with
      | some ps1 => fetchLoop zkGet topicName rest ps1
      | none => none
    | none => fetchLoop zkGet topicName rest ps

/-- The function `fetchTopic`.  `zkTopic` is `zookeeper.Topic(topicName)` as the pair
(value, error). -/
def fetchTopic (zkTopic : ZkTopic × Option GoError) (zkGet : String → Option Partition)
    (topicName : String) : Outcome (topic × Option GoError) :=
  match zkTopic.2 with
  | some err => .returned (topic.zero, some err)
  | none =>
    let t : topic :=
      { Name := topicName
        Partitions := List.replicate (keysLen zkTopic.1.Partitions) Partition.zero
        Config := { Version := 0, Data := none }
        Deleted := false
        Metrics := some [] }
    match fetchLoop zkGet topicName zkTopic.1.Partitions t.Partitions with
    | some ps => .returned ({ t with Partitions := ps }, none)
    | none => .panicked

/-! ## `topic.MarshalJSON` (`src/store/topics.go`, lines 60-79) -/

/-- A value stored in the `map[string]interface{}` that `MarshalJSON` serializes. -/
inductive JsonField where
  | string (s : String)
  | bool (b : Bool)
  | partitions (ps : List Partition)
  | intMap (m : IntMap)
  | config (c : TopicConfig)
  | int (n : Int)

/-- Go's `res[k] = v` on a map given by its bindings. -/
def mapSet {β : Type} (m : List (String × β)) (k : String) (v : β) : List (String × β) :=
  m.filter (fun kv => kv.1 != k) ++ [(k, v)]

/-- Go's `v, ok := res[k]` on a map given by its bindings. -/
def mapGet? {β : Type} (m : List (String × β)) (k : String) : Option β :=
  (m.find? (fun kv => kv.1 == k)).map Prod.snd

/-- The method `topic.MarshalJSON` up to the final `json.Marshal(res)`: the object `res`. -/
def topic.MarshalJSON (t : topic) : List (String × JsonField) :=
  let res : List (String × JsonField) :=
    [("name", .string t.Name), ("deleted", .bool t.Deleted), ("partitions", .partitions t.Partitions)]
  let res := if mapLen t.Metrics > 0 then mapSet res "metrics" (.intMap t.Metrics) else res
  let res := if mapLen t.Config.Data > 0 then mapSet res "config" (.config t.Config) else res
  let res := if t.Size ≠ 0 then mapSet res "size" (.int t.Size) else res
  let res := if t.Messages ≠ 0 then mapSet res "message_count" (.int t.Messages) else res
  res


/-! ## Admin operations (`src/store/topics.go`, lines 126-227) -/

/-- The struct `kafka.TopicSpecification`, with the fields `CreateTopic` sets. -/
structure TopicSpecification where
  Topic : String
  NumPartitions : Int
  ReplicationFactor : Int
  Config : Option (List (String × String))
  deriving DecidableEq, Repr

/-- The type `kafka.AlterOperation`. -/
inductive AlterOperation where
  | AlterOperationSet
  deriving DecidableEq, Repr

/-- The struct `kafka.ConfigEntry`, with the fields `UpdateTopicConfig` sets. -/
structure ConfigEntry where
  Name : String
  Value : String
  Operation : AlterOperation
  deriving DecidableEq, Repr

/-- The type `kafka.ResourceType`. -/
inductive ResourceType where
  | ResourceUnknown
  | ResourceAny
  | ResourceTopic
  | ResourceGroup
  | ResourceBroker
  deriving DecidableEq, Repr

/-- The struct `kafka.ConfigResource` (`Type_` is its field `Type`). -/
structure ConfigResource where
  Type_ : ResourceType
  Name : String
  Config : List ConfigEntry
  deriving DecidableEq, Repr

/-- The struct `kafka.PartitionsSpecification`, with the fields `AddParitions` sets. -/
structure PartitionsSpecification where
  Topic : String
  IncreaseTo : Int
  deriving DecidableEq, Repr

/-- The admin options the operations pass, with their duration in seconds. -/
inductive AdminOption where
  | SetAdminOperationTimeout (seconds : Nat)
  | SetAdminRequestTimeout (seconds : Nat)
  deriving DecidableEq, Repr

/-- The struct `kafka.TopicResult`. -/
structure TopicResult where
  Topic : String
  Error : KafkaError
  deriving DecidableEq, Repr

/-- The struct `kafka.ConfigResourceResult`, with the fields the code reads or that
identify the resource. -/
structure ConfigResourceResult where
  Type_ : ResourceType
  Name : String
  Error : KafkaError
  deriving DecidableEq, Repr

/-- The value `*kafka.AdminClient`: each method answers with Go's pair (results, error). -/
structure AdminClient where
  CreateTopics : List TopicSpecification → AdminOption → List TopicResult × Option GoError
  AlterConfigs : List ConfigResource → AdminOption → List ConfigResourceResult × Option GoError
  CreatePartitions :
    List PartitionsSpecification → AdminOption → List TopicResult × Option GoError
  DeleteTopics : List String → AdminOption → List TopicResult × Option GoError

/-- A method call on the admin client, with its arguments. -/
inductive Request where
  | CreateTopics (topics : List TopicSpecification) (option : AdminOption)
  | AlterConfigs (resources : List ConfigResource) (option : AdminOption)
  | CreatePartitions (partitions : List PartitionsSpecification) (option : AdminOption)
  | DeleteTopics (topics : List String) (option : AdminOption)
  deriving DecidableEq, Repr

/-- What an operation does besides returning: `log.Error(op, log.ErrorEntry{err})` and
method calls on the admin client, in the order in which they happen. -/
inductive Event where
  | log (op : String) (entry : GoError)
  | request (r : Request)
  deriving DecidableEq, Repr

/-- A completed call of an admin operation: the returned `error` (`none` is nil), or a
panic, and the events it produced. -/
structure Run where
  ret : Outcome (Option GoError)
  trace : List Event
  deriving DecidableEq, Repr

/-- The records the call appended to the log, as (operation name, entry). -/
def Run.logs (r : Run) : List (String × GoError) :=
  r.trace.filterMap (fun ev => match ev with
    | .log op entry => some (op, entry)
    | .request _ => none)

/-- The method calls the call made on the admin client. -/
def Run.requests (r : Run) : List Request :=
  r.trace.filterMap (fun ev => match ev with
    | .log _ _ => none
    | .request q => some q)

/-- The loop `for _, r := range results` shared by the four operations: the first result
whose code is not `ErrNoError` is logged under `op` and returned; otherwise nil. -/
def resultLoop (op : String) : List KafkaError → Run
  | [] => { ret := .returned none, trace := [] }
  | e :: rest =>
    if e.code ≠ ErrNoError then
      { ret := .returned (some (.kafka e)), trace := [.log op (.kafka e)] }
    else resultLoop op rest

/-- Prefix the events that happened before the rest of the call. -/
def Run.after (evs : List Event) (r : Run) : Run := { r with trace := evs ++ r.trace }

/-- The function `CreateTopic`.  `adminClient` is the pair that `adminClient()` returns. -/
def CreateTopic (adminClient : AdminClient × Option GoError) (name : String)
    (partitions replicationFactor : Int) (topicConfig : Option (List (String × String))) : Run :=
  match adminClient.2 with
  | some err => { ret := .returned (some err), trace := [.log "create_topic" err] }
  | none =>
    let topics : List TopicSpecification :=
      [{ Topic := name, NumPartitions := partitions, ReplicationFactor := replicationFactor,
         Config := topicConfig }]
    let option := AdminOption.SetAdminOperationTimeout 15
    let req := Event.request (.CreateTopics topics option)
    match adminClient.1.CreateTopics topics option with
    | (_, some err) => { ret := .returned (some err), trace := [req, .log "create_topic" err] }
    | (results, none) =>
      (resultLoop "create_topic" (results.map (fun r => r.Error))).after [req]

/-- The first loop of `UpdateTopicConfig` (lines 154-160), over the map in the order the
`range` loop visits it: `none` is the panic of the type assertion `v.(string)`. -/
def buildChanges : List (String × Value) → Option (List ConfigEntry)
  | [] => some []
  | (k, .str v) :: rest =>
    match buildChanges rest with
    | some changes =>
      some ({ Name := k, Value := v, Operation := .AlterOperationSet } :: changes)
    | none => none
  | (_, _) :: _ => none

/-- The function `UpdateTopicConfig`. -/
def UpdateTopicConfig (adminClient : AdminClient × Option GoError) (name : String)
    (topicConfig : List (String × Value)) : Run :=
  match buildChanges topicConfig with
  | none => { ret := .panicked, trace := [] }
  | some changes =>
    match adminClient.2 with
    | some err => { ret := .returned (some err), trace := [.log "update_topic_config" err] }
    | none =>
      let configResource : ConfigResource :=
        { Type_ := .ResourceTopic, Name := name, Config := changes }
      let option := AdminOption.SetAdminRequestTimeout 30
      let req := Event.request (.AlterConfigs [configResource] option)
      match adminClient.1.AlterConfigs [configResource] option with
      | (_, some err) =>
        { ret := .returned (some err), trace := [req, .log "update_topic_config" err] }
      | (results, none) =>
        (resultLoop "update_topic_config" (results.map (fun r => r.Error))).after [req]

/-- The function `AddParitions`. -/
def AddParitions (adminClient : AdminClient × Option GoError) (name : String)
    (increaseTo : Int) : Run :=
  match adminClient.2 with
  | some err => { ret := .returned (some err), trace := [.log "update_topic_config" err] }
  | none =>
    let spec : PartitionsSpecification := { Topic := name, IncreaseTo := increaseTo }
    let option := AdminOption.SetAdminRequestTimeout 15
    let req := Event.request (.CreatePartitions [spec] option)
    match adminClient.1.CreatePartitions [spec] option with
    | (_, some err) => { ret := .returned (some err), trace := [req, .log "add_partitions" err] }
    | (results, none) =>
      (resultLoop "add_partitions" (results.map (fun r => r.Error))).after [req]

/-- The function `DeleteTopic`: the error of `adminClient()` is overwritten by the one of
`a.DeleteTopics` before it is looked at. -/
def DeleteTopic (adminClient : AdminClient × Option GoError) (name : String) : Run :=
  let option := AdminOption.SetAdminOperationTimeout 15
  let req := Event.request (.DeleteTopics [name] option)
  match adminClient.1.DeleteTopics [name] option with
  | (_, some err) => { ret := .returned (some err), trace := [req, .log "delete_topic" err] }
  | (results, none) =>
    (resultLoop "delete_topic" (results.map (fun r => r.Error))).after [req]

/-! ## `TopicMessageCount` (`src/jmx/topics.go`, lines 47-61) -/

/-- The function `jmx.TopicMessageCount`.  `LogOffset name topic p` is the pair
(value, error) of the offset query; an error is printed and the loop goes on to
`msgs += e - s` with the values returned. -/
def TopicMessageCount (LogOffset : String → String → String → Int × Option GoError)
    (topic : String) (partitions : List String) : Int :=
  partitions.foldl
    (fun msgs p =>
      let s := (LogOffset "LogStartOffset" topic p).1
      let e := (LogOffset "LogEndOffset" topic p).1
      addInt msgs (subInt e s))
    0

/-- The count as the specification words it: one term `end - start` for each listed
partition for which both offset queries succeed, and no term for the others. -/
def messageCountOfReadable (LogOffset : String → String → String → Int × Option GoError)
    (topic : String) (partitions : List String) : Int :=
  wrapInt ((partitions.filterMap (fun p =>
    match LogOffset "LogStartOffset" topic p, LogOffset "LogEndOffset" topic p with
    | (s, none), (e, none) => some (e - s)
    | _, _ => none)).sum)


/-! ## Concrete collaborators -/

/-- An admin client for which every call succeeds with one result of code `ErrNoError`. -/
def successClient : AdminClient :=
  { CreateTopics := fun topics _ =>
      (topics.map (fun sp => { Topic := sp.Topic, Error := { code := ErrNoError, str := "" } }), none)
    AlterConfigs := fun resources _ =>
      (resources.map (fun c =>
        { Type_ := c.Type_, Name := c.Name, Error := { code := ErrNoError, str := "" } }), none)
    CreatePartitions := fun partitions _ =>
      (partitions.map (fun sp => { Topic := sp.Topic, Error := { code := ErrNoError, str := "" } }), none)
    DeleteTopics := fun topics _ =>
      (topics.map (fun n => { Topic := n, Error := { code := ErrNoError, str := "" } }), none) }

/-- An admin client whose cluster knows no topic: every call is answered with one result
of code 3 (unknown topic or partition). -/
def unknownTopicClient : AdminClient :=
  { CreateTopics := fun topics _ =>
      (topics.map (fun sp => { Topic := sp.Topic, Error := { code := 3, str := "unknown topic" } }), none)
    AlterConfigs := fun resources _ =>
      (resources.map (fun c =>
        { Type_ := c.Type_, Name := c.Name, Error := { code := 3, str := "unknown topic" } }), none)
    CreatePartitions := fun partitions _ =>
      (partitions.map (fun sp => { Topic := sp.Topic, Error := { code := 3, str := "unknown topic" } }), none)
    DeleteTopics := fun topics _ =>
      (topics.map (fun n => { Topic := n, Error := { code := 3, str := "unknown topic" } }), none) }

/-- An admin client whose every call fails in transport, without results. -/
def unreachableClient : AdminClient :=
  { CreateTopics := fun _ _ => ([], some (.other "timed out"))
    AlterConfigs := fun _ _ => ([], some (.other "timed out"))
    CreatePartitions := fun _ _ => ([], some (.other "timed out"))
    DeleteTopics := fun _ _ => ([], some (.other "timed out")) }

/-- An offset query whose start offset reads 50 and whose end offset cannot be read. -/
def endOffsetUnreadable (name _topic _p : String) : Int × Option GoError :=
  if name == "LogEndOffset" then (0, some (.other "broker unreachable")) else (50, none)


/-! ## Specification predicates -/

/-- The first result, in result order, whose code is not `ErrNoError`, as an `error`. -/
def firstFailure (errs : List KafkaError) : Option GoError :=
  (errs.find? (fun e => e.code != ErrNoError)).map GoError.kafka

/-- The log of an admin call that answered with `results` and `callErr`, outcome by
outcome: a transport error appends exactly one record under `op` carrying that error; a
result whose code is not `ErrNoError` appends exactly one record under `op` carrying the
error of the first such result; a success appends no record. -/
def LogsEveryOutcome (op : String) (results : List KafkaError) (callErr : Option GoError)
    (r : Run) : Prop :=
  (∀ err, callErr = some err → r.logs = [(op, err)])
  ∧ (callErr = none → (∃ e ∈ results, e.code ≠ ErrNoError) →
      ∃ e, firstFailure results = some e ∧ r.logs = [(op, e)])
  ∧ (callErr = none → (∀ e ∈ results, e.code = ErrNoError) → r.logs = [])

/-- The keys an object serialized by `topic.MarshalJSON` can have. -/
def topicJsonKeys : List String :=
  ["name", "deleted", "partitions", "metrics", "config", "size", "message_count"]

/-- The config entry `UpdateTopicConfig` builds for the change `k = v`. -/
def setEntry (kv : String × String) : ConfigEntry :=
  { Name := kv.1, Value := kv.2, Operation := .AlterOperationSet }

/-- A change map all of whose values are strings, as `map[string]interface{}`. -/
def stringChanges (cfg : List (String × String)) : List (String × Value) :=
  cfg.map (fun kv => (kv.1, Value.str kv.2))


/-- The partition `fetchTopic` stores for an entry whose state read succeeds, the zero
value when the read fails: the expected content of the slot of partition `p`. -/
def slotOf (zkGet : String → Option Partition) (topicName p : String)
    (replicas : Option (List Int)) : Partition :=
  match zkGet (partitionPath topicName p) with
  | some par => { par with Replicas := replicas, Metrics := some [] }
  | none => Partition.zero

/-- The assignment document with keys "0" .. "n-1", key `i` bound to `repl i`, in
increasing order of the keys. -/
def assignment (n : Nat) (repl : Nat → Option (List Int)) : List (String × Option (List Int)) :=
  (List.range n).map (fun i => (toString i, repl i))

/-- The indices at which the loop of `fetchTopic` executes `t.Partitions[i] = par`, key
by key, when no store panics. -/
def storeIndices (zkGet : String → Option Partition) (topicName : String)
    (entries : List (String × Option (List Int))) : List (String × Int) :=
  (entries.filter (fun e => (zkGet (partitionPath topicName e.1)).isSome)).map
    (fun e => (e.1, (Atoi e.1).1))


/-- A state document as `zookeeper.Get` decodes it: leader, ISR and epochs only. -/
def stateDoc (leader : Int) (isr : List Int) : Partition :=
  { Leader := leader, Replicas := none, ISR := some isr, LeaderEpoch := 7, Version := 1,
    ControllerEpoch := 4, Metrics := none }

/-- A coordination store in which every partition state reads as led by broker 1. -/
def allReadable (_path : String) : Option Partition := some (stateDoc 1 [1, 2])

/-- The same store with the state document of partition 1 of `orders` unreadable. -/
def oneUnreadable (path : String) : Option Partition :=
  if path == "/brokers/topics/orders/partitions/1/state" then none else some (stateDoc 1 [1, 2])

/-- Replica lists of the examples: partition `i` is on brokers 1 and 2. -/
def twoReplicas (_i : Nat) : Option (List Int) := some [1, 2]


/-! ## Properties -/

theorem wrapInt_of_inRange {x : Int} (h : InIntRange x) : wrapInt x = x := by
  unfold InIntRange at h
  unfold wrapInt
  omega

theorem wrapInt_inRange (x : Int) : InIntRange (wrapInt x) := by
  unfold InIntRange wrapInt
  omega

theorem wrapInt_add_left (a b : Int) : wrapInt (wrapInt a + b) = wrapInt (a + b) := by
  unfold wrapInt
  omega

theorem wrapInt_add_right (a b : Int) : wrapInt (a + wrapInt b) = wrapInt (a + b) := by
  unfold wrapInt
  omega

/-- A running `sum += f p` in `int` arithmetic is the exact sum reduced once at the end. -/
theorem foldl_addInt {α : Type} (f : α → Int) (l : List α) (a : Int) :
    l.foldl (fun sum p => addInt sum (f p)) (wrapInt a) = wrapInt (a + (l.map f).sum) := by
  induction l generalizing a with
  | nil => simp
  | cons x xs ih =>
    have step : addInt (wrapInt a) (f x) = wrapInt (a + f x) := wrapInt_add_left a (f x)
    rw [List.foldl_cons, step, ih (a + f x), List.map_cons, List.sum_cons, add_assoc]

theorem wrapInt_sum_wrapInt {α : Type} (g : α → Int) (l : List α) :
    wrapInt ((l.map (fun p => wrapInt (g p))).sum) = wrapInt ((l.map g).sum) := by
  induction l with
  | nil => simp
  | cons x xs ih =>
    rw [List.map_cons, List.sum_cons, List.map_cons, List.sum_cons, wrapInt_add_left,
      ← wrapInt_add_right, ih, wrapInt_add_right]

theorem wrapInt_zero : wrapInt 0 = 0 := by decide

theorem Messages_eq (t : topic) :
    t.Messages = wrapInt ((t.Partitions.map
      (fun p => p.Metrics.get "LogEndOffset" - p.Metrics.get "LogStartOffset")).sum) := by
  have h := foldl_addInt
    (fun p : Partition => subInt (p.Metrics.get "LogEndOffset") (p.Metrics.get "LogStartOffset"))
    t.Partitions 0
  rw [wrapInt_zero, zero_add] at h
  unfold topic.Messages
  rw [h]
  exact wrapInt_sum_wrapInt _ _

theorem Size_eq (t : topic) :
    t.Size = wrapInt ((t.Partitions.map (fun p => p.Metrics.get "Size")).sum) := by
  have h := foldl_addInt (fun p : Partition => p.Metrics.get "Size") t.Partitions 0
  rw [wrapInt_zero, zero_add] at h
  unfold topic.Size
  rw [h]

/-! ### Derived metrics -/

theorem ordersTopic_Messages : ordersTopic.Messages = 150 := by decide

/-- C1: `Messages` is the sum over the partitions of `LogEndOffset - LogStartOffset` and
`Size` the sum of `Size`, a missing key reading as 0, both in Go's `int` arithmetic (the
exact sum whenever that fits an `int`); the `orders` topic has 150 messages and a topic
without partitions has 0 messages and size 0. -/
theorem messages_and_size_are_partition_sums (t : topic) :
    t.Messages = wrapInt ((t.Partitions.map
        (fun p => p.Metrics.get "LogEndOffset" - p.Metrics.get "LogStartOffset")).sum)
    ∧ t.Size = wrapInt ((t.Partitions.map (fun p => p.Metrics.get "Size")).sum)
    ∧ (InIntRange ((t.Partitions.map
          (fun p => p.Metrics.get "LogEndOffset" - p.Metrics.get "LogStartOffset")).sum) →
        t.Messages = (t.Partitions.map
          (fun p => p.Metrics.get "LogEndOffset" - p.Metrics.get "LogStartOffset")).sum)
    ∧ (InIntRange ((t.Partitions.map (fun p => p.Metrics.get "Size")).sum) →
        t.Size = (t.Partitions.map (fun p => p.Metrics.get "Size")).sum)
    ∧ ordersTopic.Messages = 150
    ∧ (t.Partitions = [] → t.Messages = 0 ∧ t.Size = 0) := by
  refine ⟨Messages_eq t, Size_eq t, ?_, ?_, ordersTopic_Messages, ?_⟩
  · intro h
    rw [Messages_eq, wrapInt_of_inRange h]
  · intro h
    rw [Size_eq, wrapInt_of_inRange h]
  · intro h
    simp [topic.Messages, topic.Size, h]

/-- C1 at the `orders` topic and at the empty topic. -/
theorem messages_and_size_are_partition_sums_witness :
    ordersTopic.Messages = (ordersTopic.Partitions.map
        (fun p => p.Metrics.get "LogEndOffset" - p.Metrics.get "LogStartOffset")).sum
    ∧ ordersTopic.Size = (ordersTopic.Partitions.map (fun p => p.Metrics.get "Size")).sum
    ∧ (topic.zero.Messages = 0 ∧ topic.zero.Size = 0) :=
  ⟨(messages_and_size_are_partition_sums ordersTopic).2.2.1 (by decide),
   (messages_and_size_are_partition_sums ordersTopic).2.2.2.1 (by decide),
   (messages_and_size_are_partition_sums topic.zero).2.2.2.2.2 rfl⟩

/-! ### Admin operations -/

theorem resultLoop_ret (op : String) (errs : List KafkaError) :
    (resultLoop op errs).ret = .returned (firstFailure errs) := by
  induction errs with
  | nil => rfl
  | cons e rest ih =>
    unfold resultLoop
    by_cases h : e.code = ErrNoError
    · simp [h, ih, firstFailure]
    · simp [h, firstFailure]

theorem resultLoop_trace (op : String) (errs : List KafkaError) :
    (resultLoop op errs).trace =
      match firstFailure errs with
      | none => []
      | some e => [.log op e] := by
  induction errs with
  | nil => rfl
  | cons e rest ih =>
    unfold resultLoop
    by_cases h : e.code = ErrNoError
    · simp [h, ih, firstFailure]
    · simp [h, firstFailure]

theorem firstFailure_eq_none (errs : List KafkaError) :
    firstFailure errs = none ↔ ∀ e ∈ errs, e.code = ErrNoError := by
  simp [firstFailure]

theorem firstFailure_map {α : Type} (f : α → KafkaError) (results : List α) :
    firstFailure (results.map f) =
      (results.find? (fun r => (f r).code != ErrNoError)).map (fun r => GoError.kafka (f r)) := by
  unfold firstFailure
  rw [List.find?_map, Option.map_map]
  rfl

theorem after_ret (evs : List Event) (r : Run) : (r.after evs).ret = r.ret := rfl

theorem after_trace (evs : List Event) (r : Run) : (r.after evs).trace = evs ++ r.trace := rfl

/-- The outcome of the result loop in the shape the admin operations are stated in. -/
theorem resultLoop_spec {α : Type} (op : String) (f : α → KafkaError) (results : List α) :
    ((resultLoop op (results.map f)).ret = .returned none ↔
        ∀ r ∈ results, (f r).code = ErrNoError)
    ∧ (resultLoop op (results.map f)).ret = .returned
        ((results.find? (fun r => (f r).code != ErrNoError)).map (fun r => GoError.kafka (f r))) := by
  constructor
  · rw [resultLoop_ret]
    constructor
    · intro h
      have h1 : firstFailure (results.map f) = none := by
        injection h
      have h2 := (firstFailure_eq_none _).1 h1
      intro r hr
      exact h2 (f r) (List.mem_map_of_mem f hr)
    · intro h
      have h1 : firstFailure (results.map f) = none := by
        rw [firstFailure_eq_none]
        intro e he
        obtain ⟨r, hr, rfl⟩ := List.mem_map.1 he
        exact h r hr
      rw [h1]
  · rw [resultLoop_ret, firstFailure_map]

/-- C2: for each of `CreateTopic`, `DeleteTopic`, `UpdateTopicConfig` and `AddParitions`,
when the admin client is obtained and the admin call returns no transport error, the
operation returns nil exactly when every result has code `ErrNoError`, and in every case
returns the error of the first result whose code is not `ErrNoError` (nil when there is
none); `DeleteTopic` with a non-success result returns a non-nil error. -/
theorem admin_result_is_first_failure (ac : AdminClient × Option GoError) (name : String)
    (partitions replicationFactor increaseTo : Int)
    (topicConfig : Option (List (String × String)))
    (changes : List (String × Value)) (entries : List ConfigEntry)
    (hclient : ac.2 = none) (hchanges : buildChanges changes = some entries) :
    (∀ results,
      ac.1.CreateTopics
          [{ Topic := name, NumPartitions := partitions,
             ReplicationFactor := replicationFactor, Config := topicConfig }]
          (.SetAdminOperationTimeout 15) = (results, none) →
      ((CreateTopic ac name partitions replicationFactor topicConfig).ret = .returned none ↔
          ∀ r ∈ results, r.Error.code = ErrNoError)
      ∧ (CreateTopic ac name partitions replicationFactor topicConfig).ret = .returned
          ((results.find? (fun r => r.Error.code != ErrNoError)).map
            (fun r => GoError.kafka r.Error)))
    ∧ (∀ results,
      ac.1.DeleteTopics [name] (.SetAdminOperationTimeout 15) = (results, none) →
      ((DeleteTopic ac name).ret = .returned none ↔
          ∀ r ∈ results, r.Error.code = ErrNoError)
      ∧ (DeleteTopic ac name).ret = .returned
          ((results.find? (fun r => r.Error.code != ErrNoError)).map
            (fun r => GoError.kafka r.Error))
      ∧ ((∃ r ∈ results, r.Error.code ≠ ErrNoError) →
          ∃ e, (DeleteTopic ac name).ret = .returned (some e)))
    ∧ (∀ results,
      ac.1.AlterConfigs [{ Type_ := .ResourceTopic, Name := name, Config := entries }]
          (.SetAdminRequestTimeout 30) = (results, none) →
      ((UpdateTopicConfig ac name changes).ret = .returned none ↔
          ∀ r ∈ results, r.Error.code = ErrNoError)
      ∧ (UpdateTopicConfig ac name changes).ret = .returned
          ((results.find? (fun r => r.Error.code != ErrNoError)).map
            (fun r => GoError.kafka r.Error)))
    ∧ (∀ results,
      ac.1.CreatePartitions [{ Topic := name, IncreaseTo := increaseTo }]
          (.SetAdminRequestTimeout 15) = (results, none) →
      ((AddParitions ac name increaseTo).ret = .returned none ↔
          ∀ r ∈ results, r.Error.code = ErrNoError)
      ∧ (AddParitions ac name increaseTo).ret = .returned
          ((results.find? (fun r => r.Error.code != ErrNoError)).map
            (fun r => GoError.kafka r.Error))) := by
  refine ⟨?_, ?_, ?_, ?_⟩
  · intro results h
    have e : (CreateTopic ac name partitions replicationFactor topicConfig).ret =
        (resultLoop "create_topic" (results.map (fun r => r.Error))).ret := by
      simp [CreateTopic, hclient, h, after_ret]
    rw [e]
    exact resultLoop_spec "create_topic" (fun r : TopicResult => r.Error) results
  · intro results h
    have e : (DeleteTopic ac name).ret =
        (resultLoop "delete_topic" (results.map (fun r => r.Error))).ret := by
      simp [DeleteTopic, h, after_ret]
    rw [e]
    have sp := resultLoop_spec "delete_topic" (fun r : TopicResult => r.Error) results
    refine ⟨sp.1, sp.2, ?_⟩
    rintro ⟨r, hr, hne⟩
    cases hf : firstFailure (results.map (fun r => r.Error)) with
    | none =>
      exact absurd ((firstFailure_eq_none _).1 hf r.Error (List.mem_map_of_mem _ hr)) hne
    | some e0 => exact ⟨e0, by rw [resultLoop_ret, hf]⟩
  · intro results h
    have e : (UpdateTopicConfig ac name changes).ret =
        (resultLoop "update_topic_config" (results.map (fun r => r.Error))).ret := by
      simp [UpdateTopicConfig, hchanges, hclient, h, after_ret]
    rw [e]
    exact resultLoop_spec "update_topic_config" (fun r : ConfigResourceResult => r.Error) results
  · intro results h
    have e : (AddParitions ac name increaseTo).ret =
        (resultLoop "add_partitions" (results.map (fun r => r.Error))).ret := by
      simp [AddParitions, hclient, h, after_ret]
    rw [e]
    exact resultLoop_spec "add_partitions" (fun r : TopicResult => r.Error) results

/-- C2 at `DeleteTopic("does-not-exist")` on a cluster that answers "unknown topic". -/
theorem admin_result_is_first_failure_witness :
    (DeleteTopic (unknownTopicClient, none) "does-not-exist").ret =
        .returned (some (.kafka { code := 3, str := "unknown topic" }))
    ∧ (CreateTopic (successClient, none) "orders2" 3 2 none).ret = .returned none :=
  ⟨((admin_result_is_first_failure (unknownTopicClient, none) "does-not-exist" 3 2 6 none
      [("retention.ms", .str "1000")]
      [{ Name := "retention.ms", Value := "1000", Operation := .AlterOperationSet }]
      rfl rfl).2.1 _ rfl).2.1,
   ((admin_result_is_first_failure (successClient, none) "orders2" 3 2 6 none
      [("retention.ms", .str "1000")]
      [{ Name := "retention.ms", Value := "1000", Operation := .AlterOperationSet }]
      rfl rfl).1 _ rfl).2⟩

theorem logs_after_resultLoop (op : String) (errs : List KafkaError) (q : Request) :
    ((resultLoop op errs).after [.request q]).logs =
      match firstFailure errs with
      | none => []
      | some e => [(op, e)] := by
  unfold Run.logs
  rw [after_trace, resultLoop_trace]
  cases firstFailure errs <;> simp

theorem logsEveryOutcome_results (op : String) (errs : List KafkaError) (q : Request) :
    LogsEveryOutcome op errs none ((resultLoop op errs).after [.request q]) := by
  refine ⟨fun err h => Option.noConfusion h, ?_, ?_⟩
  · rintro _ ⟨e, he, hne⟩
    cases hf : firstFailure errs with
    | none => exact absurd ((firstFailure_eq_none errs).1 hf e he) hne
    | some e0 =>
      refine ⟨e0, rfl, ?_⟩
      rw [logs_after_resultLoop, hf]
  · intro _ hall
    rw [logs_after_resultLoop, (firstFailure_eq_none errs).2 hall]

theorem logsEveryOutcome_transport (op : String) (errs : List KafkaError) (err : GoError)
    (q : Request) :
    LogsEveryOutcome op errs (some err)
      { ret := .returned (some err), trace := [.request q, .log op err] } := by
  refine ⟨?_, fun h => Option.noConfusion h, fun h => Option.noConfusion h⟩
  intro err1 h
  rw [← Option.some.inj h]
  rfl

/-- C7 (amended): a call of an admin operation appends exactly one log record on each
kind of failure and none on success.  Once the admin client is obtained, each of
`CreateTopic`, `UpdateTopicConfig`, `DeleteTopic` and `AddParitions` appends exactly one
record carrying the transport error when the admin call fails, exactly one record
carrying the error of the first result whose code is not `ErrNoError` when there is one,
and no record otherwise, under the name `create_topic`, `update_topic_config`,
`delete_topic` and `add_partitions` respectively; when the admin client is unavailable
`CreateTopic` and `UpdateTopicConfig` append exactly one record under their own name
carrying that error.  (`UpdateTopicConfig` is taken on change maps that pass the type
assertion; one that does not panics with no record.) -/
theorem admin_operations_log_every_failure (ac : AdminClient × Option GoError) (name : String)
    (partitions replicationFactor increaseTo : Int)
    (topicConfig : Option (List (String × String)))
    (changes : List (String × Value)) (entries : List ConfigEntry) :
    (∀ err, ac.2 = some err →
      (CreateTopic ac name partitions replicationFactor topicConfig).logs =
        [("create_topic", err)])
    ∧ (ac.2 = none →
      LogsEveryOutcome "create_topic"
        ((ac.1.CreateTopics
          [{ Topic := name, NumPartitions := partitions,
             ReplicationFactor := replicationFactor, Config := topicConfig }]
          (.SetAdminOperationTimeout 15)).1.map (fun r => r.Error))
        (ac.1.CreateTopics
          [{ Topic := name, NumPartitions := partitions,
             ReplicationFactor := replicationFactor, Config := topicConfig }]
          (.SetAdminOperationTimeout 15)).2
        (CreateTopic ac name partitions replicationFactor topicConfig))
    ∧ (∀ err, ac.2 = some err → buildChanges changes = some entries →
      (UpdateTopicConfig ac name changes).logs = [("update_topic_config", err)])
    ∧ (ac.2 = none → buildChanges changes = some entries →
      LogsEveryOutcome "update_topic_config"
        ((ac.1.AlterConfigs [{ Type_ := .ResourceTopic, Name := name, Config := entries }]
          (.SetAdminRequestTimeout 30)).1.map (fun r => r.Error))
        (ac.1.AlterConfigs [{ Type_ := .ResourceTopic, Name := name, Config := entries }]
          (.SetAdminRequestTimeout 30)).2
        (UpdateTopicConfig ac name changes))
    ∧ (buildChanges changes = none → (UpdateTopicConfig ac name changes).logs = [])
    ∧ (ac.2 = none →
      LogsEveryOutcome "delete_topic"
        ((ac.1.DeleteTopics [name] (.SetAdminOperationTimeout 15)).1.map (fun r => r.Error))
        (ac.1.DeleteTopics [name] (.SetAdminOperationTimeout 15)).2
        (DeleteTopic ac name))
    ∧ (ac.2 = none →
      LogsEveryOutcome "add_partitions"
        ((ac.1.CreatePartitions [{ Topic := name, IncreaseTo := increaseTo }]
          (.SetAdminRequestTimeout 15)).1.map (fun r => r.Error))
        (ac.1.CreatePartitions [{ Topic := name, IncreaseTo := increaseTo }]
          (.SetAdminRequestTimeout 15)).2
        (AddParitions ac name increaseTo)) := by
  refine ⟨?_, ?_, ?_, ?_, ?_, ?_, ?_⟩
  · intro err hc
    simp [CreateTopic, hc, Run.logs]
  · intro hc
    unfold CreateTopic
    rw [hc]
    simp only
    generalize ac.1.CreateTopics _ _ = call
    obtain ⟨results, callErr⟩ := call
    cases callErr with
    | some err => exact logsEveryOutcome_transport _ _ _ _
    | none => exact logsEveryOutcome_results _ _ _
  · intro err hc hb
    simp [UpdateTopicConfig, hb, hc, Run.logs]
  · intro hc hb
    unfold UpdateTopicConfig
    rw [hb, hc]
    simp only
    generalize ac.1.AlterConfigs _ _ = call
    obtain ⟨results, callErr⟩ := call
    cases callErr with
    | some err => exact logsEveryOutcome_transport _ _ _ _
    | none => exact logsEveryOutcome_results _ _ _
  · intro hb
    simp [UpdateTopicConfig, hb, Run.logs]
  · intro _
    unfold DeleteTopic
    simp only
    generalize ac.1.DeleteTopics _ _ = call
    obtain ⟨results, callErr⟩ := call
    cases callErr with
    | some err => exact logsEveryOutcome_transport _ _ _ _
    | none => exact logsEveryOutcome_results _ _ _
  · intro hc
    unfold AddParitions
    rw [hc]
    simp only
    generalize ac.1.CreatePartitions _ _ = call
    obtain ⟨results, callErr⟩ := call
    cases callErr with
    | some err => exact logsEveryOutcome_transport _ _ _ _
    | none => exact logsEveryOutcome_results _ _ _

/-- C7 (amended) at each outcome: the admin client unavailable, a transport error, a
non-success result code, and a success. -/
theorem admin_operations_log_every_failure_witness :
    (CreateTopic (successClient, some (.other "no brokers")) "orders2" 3 2 none).logs =
        [("create_topic", .other "no brokers")]
    ∧ (DeleteTopic (unreachableClient, none) "orders").logs =
        [("delete_topic", .other "timed out")]
    ∧ (∃ e, firstFailure [{ code := 3, str := "unknown topic" }] = some e
        ∧ (AddParitions (unknownTopicClient, none) "does-not-exist" 6).logs =
            [("add_partitions", e)])
    ∧ (UpdateTopicConfig (successClient, none) "orders" [("retention.ms", .str "1000")]).logs =
        [] :=
  ⟨(admin_operations_log_every_failure (successClient, some (.other "no brokers")) "orders2"
      3 2 6 none [] []).1 _ rfl,
   ((admin_operations_log_every_failure (unreachableClient, none) "orders" 3 2 6 none
      [] []).2.2.2.2.2.1 rfl).1 _ rfl,
   ((admin_operations_log_every_failure (unknownTopicClient, none) "does-not-exist" 3 2 6 none
      [] []).2.2.2.2.2.2 rfl).2.1 rfl
        ⟨{ code := 3, str := "unknown topic" }, List.mem_singleton.2 rfl, by decide⟩,
   ((admin_operations_log_every_failure (successClient, none) "orders" 3 2 6 none
      [("retention.ms", .str "1000")]
      [{ Name := "retention.ms", Value := "1000", Operation := .AlterOperationSet }]).2.2.2.1
      rfl rfl).2.2 rfl (by decide)⟩

/-- C7 as stated fails: a successful `CreateTopic` appends no log record, not one; and an
`UpdateTopicConfig` that panics in the type assertion appends none either. -/
theorem create_topic_success_logs_nothing :
    (CreateTopic (successClient, none) "orders2" 3 2 none).ret = .returned none
    ∧ (CreateTopic (successClient, none) "orders2" 3 2 none).logs = []
    ∧ ¬ (CreateTopic (successClient, none) "orders2" 3 2 none).logs.length = 1
    ∧ (UpdateTopicConfig (unreachableClient, none) "orders"
        [("retention.ms", .num 86400000)]).logs = [] := by
  decide

/-- C9 fails for `DeleteTopic`: with an `adminClient()` error and a client value whose
calls succeed, `DeleteTopic` issues the `DeleteTopics` request and returns nil instead of
returning the error without a request; nothing is logged. -/
theorem delete_topic_ignores_admin_client_error :
    (DeleteTopic (successClient, some (.other "no brokers")) "orders").ret = .returned none
    ∧ (DeleteTopic (successClient, some (.other "no brokers")) "orders").requests =
        [.DeleteTopics ["orders"] (.SetAdminOperationTimeout 15)]
    ∧ (DeleteTopic (successClient, some (.other "no brokers")) "orders").logs = []
    ∧ (CreateTopic (successClient, some (.other "no brokers")) "orders" 3 2 none).ret =
        .returned (some (.other "no brokers"))
    ∧ (CreateTopic (successClient, some (.other "no brokers")) "orders" 3 2 none).requests = [] := by
  decide

theorem buildChanges_stringChanges (cfg : List (String × String)) :
    buildChanges (stringChanges cfg) = some (cfg.map setEntry) := by
  induction cfg with
  | nil => rfl
  | cons kv rest ih =>
    unfold stringChanges at ih
    simp [stringChanges, buildChanges, ih, setEntry]

theorem buildChanges_non_string (changes : List (String × Value))
    (h : ∃ kv ∈ changes, ∀ v, kv.2 ≠ Value.str v) : buildChanges changes = none := by
  induction changes with
  | nil => simp at h
  | cons kv rest ih =>
    obtain ⟨k, v⟩ := kv
    cases v with
    | str v0 =>
      have hr : ∃ kv ∈ rest, ∀ v, kv.2 ≠ Value.str v := by
        obtain ⟨kv, hm, hne⟩ := h
        rcases List.mem_cons.1 hm with rfl | hm
        · exact absurd rfl (hne v0)
        · exact ⟨kv, hm, hne⟩
      simp [buildChanges, ih hr]
    | num n => rfl
    | bool b => rfl
    | null => rfl
    | arr items => rfl
    | obj fields => rfl

/-- C8 (amended): for every topic name and every change map whose values are all
strings, visited in any order, when the admin client is obtained `UpdateTopicConfig`
issues exactly one request, an `AlterConfigs` for the single topic resource of that name
whose config entries are, as a multiset, one entry per binding of the map with its key,
its value and `AlterOperationSet`; a change map with a value that is not a string makes
the call panic before any request is issued. -/
theorem update_topic_config_sets_string_changes (ac : AdminClient × Option GoError)
    (name : String) (cfg order : List (String × String)) (changes : List (String × Value))
    (hclient : ac.2 = none) (horder : order.Perm cfg) :
    (∃ entries : List ConfigEntry,
      (UpdateTopicConfig ac name (stringChanges order)).requests =
          [.AlterConfigs [{ Type_ := .ResourceTopic, Name := name, Config := entries }]
            (.SetAdminRequestTimeout 30)]
      ∧ (entries : Multiset ConfigEntry) = (cfg : Multiset (String × String)).map setEntry)
    ∧ ((∃ kv ∈ changes, ∀ v, kv.2 ≠ Value.str v) →
        UpdateTopicConfig ac name changes = { ret := .panicked, trace := [] }) := by
  constructor
  · refine ⟨order.map setEntry, ?_, ?_⟩
    · unfold UpdateTopicConfig
      rw [buildChanges_stringChanges, hclient]
      simp only
      split
      · simp [Run.requests]
      · unfold Run.requests
        rw [after_trace, resultLoop_trace]
        cases firstFailure _ <;> simp
    · rw [Multiset.map_coe]
      exact Quotient.sound (horder.map setEntry)
  · intro h
    unfold UpdateTopicConfig
    rw [buildChanges_non_string changes h]

/-- C8 (amended) at two string-valued changes visited in the reverse order, and at a
numeric change. -/
theorem update_topic_config_sets_string_changes_witness :
    (∃ entries : List ConfigEntry,
      (UpdateTopicConfig (successClient, none) "orders"
          (stringChanges [("cleanup.policy", "compact"), ("retention.ms", "1000")])).requests =
          [.AlterConfigs [{ Type_ := .ResourceTopic, Name := "orders", Config := entries }]
            (.SetAdminRequestTimeout 30)]
      ∧ (entries : Multiset ConfigEntry) =
          (([("retention.ms", "1000"), ("cleanup.policy", "compact")] : List (String × String)) :
            Multiset (String × String)).map setEntry)
    ∧ UpdateTopicConfig (successClient, none) "orders" [("retention.ms", .num 1000)] =
        { ret := .panicked, trace := [] } :=
  ⟨(update_topic_config_sets_string_changes (successClient, none) "orders"
      [("retention.ms", "1000"), ("cleanup.policy", "compact")]
      [("cleanup.policy", "compact"), ("retention.ms", "1000")]
      [("retention.ms", .num 1000)] rfl (List.Perm.swap _ _ [])).1,
   (update_topic_config_sets_string_changes (successClient, none) "orders"
      [("retention.ms", "1000"), ("cleanup.policy", "compact")]
      [("cleanup.policy", "compact"), ("retention.ms", "1000")]
      [("retention.ms", .num 1000)] rfl (List.Perm.swap _ _ [])).2
      ⟨("retention.ms", .num 1000), List.mem_singleton.2 rfl,
        fun _ h => Value.noConfusion h⟩⟩

/-- C8 as stated fails: a change whose value is a JSON number is not carried into any
request; the call panics in `v.(string)` with an empty trace. -/
theorem update_topic_config_number_panics :
    (UpdateTopicConfig (successClient, none) "orders" [("retention.ms", .num 86400000)]).ret =
        .panicked
    ∧ (UpdateTopicConfig (successClient, none) "orders"
        [("retention.ms", .num 86400000)]).requests = [] := by
  decide

/-- What `TopicMessageCount` computes: one term `e - s` for every listed partition, made of
the values the two queries returned, whether or not they returned an error. -/
theorem TopicMessageCount_eq (LogOffset : String → String → String → Int × Option GoError)
    (topic : String) (partitions : List String) :
    TopicMessageCount LogOffset topic partitions =
      wrapInt ((partitions.map (fun p =>
        (LogOffset "LogEndOffset" topic p).1 - (LogOffset "LogStartOffset" topic p).1)).sum) := by
  have h := foldl_addInt
    (fun p : String =>
      subInt (LogOffset "LogEndOffset" topic p).1 (LogOffset "LogStartOffset" topic p).1)
    partitions 0
  rw [wrapInt_zero, zero_add] at h
  unfold TopicMessageCount
  rw [h]
  exact wrapInt_sum_wrapInt _ _

/-- C6 fails where a query fails: with the start offset of partition 0 read as 50 and its
end offset unreadable (value 0 returned with the error), `TopicMessageCount` yields
`0 - 50 = -50`, while the count over the readable partitions only is 0. -/
theorem topic_message_count_uses_unread_offset :
    TopicMessageCount endOffsetUnreadable "orders" ["0"] = -50
    ∧ messageCountOfReadable endOffsetUnreadable "orders" ["0"] = 0 := by
  decide

/-! ### Serialization -/

/-- C3: the object `topic.MarshalJSON` serializes always binds `name`, `deleted` and
`partitions` to the topic's values; it binds `message_count` exactly when `Messages()` is
non-zero, then to `Messages()`; `size` exactly when `Size()` is non-zero, then to `Size()`;
`metrics` exactly when `Metrics` is non-empty and `config` exactly when `Config.Data` is
non-empty; it binds no other key; for the `orders` topic `message_count` is 150. -/
theorem marshal_json_object (t : topic) :
    mapGet? t.MarshalJSON "name" = some (.string t.Name)
    ∧ mapGet? t.MarshalJSON "deleted" = some (.bool t.Deleted)
    ∧ mapGet? t.MarshalJSON "partitions" = some (.partitions t.Partitions)
    ∧ mapGet? t.MarshalJSON "message_count" =
        (if t.Messages ≠ 0 then some (.int t.Messages) else none)
    ∧ mapGet? t.MarshalJSON "size" = (if t.Size ≠ 0 then some (.int t.Size) else none)
    ∧ mapGet? t.MarshalJSON "metrics" =
        (if mapLen t.Metrics > 0 then some (.intMap t.Metrics) else none)
    ∧ mapGet? t.MarshalJSON "config" =
        (if mapLen t.Config.Data > 0 then some (.config t.Config) else none)
    ∧ (∀ k, k ∉ topicJsonKeys → mapGet? t.MarshalJSON k = none)
    ∧ mapGet? ordersTopic.MarshalJSON "message_count" = some (.int 150) := by
  have hcount : ∀ u : topic, mapGet? u.MarshalJSON "message_count" =
      (if u.Messages ≠ 0 then some (.int u.Messages) else none) := by
    intro u
    by_cases h1 : mapLen u.Metrics > 0 <;> by_cases h2 : mapLen u.Config.Data > 0 <;>
      by_cases h3 : u.Size = 0 <;> by_cases h4 : u.Messages = 0 <;>
      simp [topic.MarshalJSON, mapSet, mapGet?, h1, h2, h3, h4]
  have horders : mapGet? ordersTopic.MarshalJSON "message_count" = some (.int 150) := by
    rw [hcount ordersTopic, ordersTopic_Messages]
    rfl
  refine ⟨?_, ?_, ?_, hcount t, ?_, ?_, ?_, ?_, horders⟩
  · by_cases h1 : mapLen t.Metrics > 0 <;> by_cases h2 : mapLen t.Config.Data > 0 <;>
      by_cases h3 : t.Size = 0 <;> by_cases h4 : t.Messages = 0 <;>
      simp [topic.MarshalJSON, mapSet, mapGet?, h1, h2, h3, h4]
  · by_cases h1 : mapLen t.Metrics > 0 <;> by_cases h2 : mapLen t.Config.Data > 0 <;>
      by_cases h3 : t.Size = 0 <;> by_cases h4 : t.Messages = 0 <;>
      simp [topic.MarshalJSON, mapSet, mapGet?, h1, h2, h3, h4]
  · by_cases h1 : mapLen t.Metrics > 0 <;> by_cases h2 : mapLen t.Config.Data > 0 <;>
      by_cases h3 : t.Size = 0 <;> by_cases h4 : t.Messages = 0 <;>
      simp [topic.MarshalJSON, mapSet, mapGet?, h1, h2, h3, h4]
  · by_cases h1 : mapLen t.Metrics > 0 <;> by_cases h2 : mapLen t.Config.Data > 0 <;>
      by_cases h3 : t.Size = 0 <;> by_cases h4 : t.Messages = 0 <;>
      simp [topic.MarshalJSON, mapSet, mapGet?, h1, h2, h3, h4]
  · by_cases h1 : mapLen t.Metrics > 0 <;> by_cases h2 : mapLen t.Config.Data > 0 <;>
      by_cases h3 : t.Size = 0 <;> by_cases h4 : t.Messages = 0 <;>
      simp [topic.MarshalJSON, mapSet, mapGet?, h1, h2, h3, h4]
  · by_cases h1 : mapLen t.Metrics > 0 <;> by_cases h2 : mapLen t.Config.Data > 0 <;>
      by_cases h3 : t.Size = 0 <;> by_cases h4 : t.Messages = 0 <;>
      simp [topic.MarshalJSON, mapSet, mapGet?, h1, h2, h3, h4]
  · intro k hk
    simp only [topicJsonKeys, List.mem_cons, List.mem_singleton, List.mem_nil_iff, or_false,
      not_or] at hk
    obtain ⟨k1, k2, k3, k4, k5, k6, k7⟩ := hk
    have e1 : ("name" == k) = false := by simpa using Ne.symm k1
    have e2 : ("deleted" == k) = false := by simpa using Ne.symm k2
    have e3 : ("partitions" == k) = false := by simpa using Ne.symm k3
    have e4 : ("metrics" == k) = false := by simpa using Ne.symm k4
    have e5 : ("config" == k) = false := by simpa using Ne.symm k5
    have e6 : ("size" == k) = false := by simpa using Ne.symm k6
    have e7 : ("message_count" == k) = false := by simpa using Ne.symm k7
    by_cases h1 : mapLen t.Metrics > 0 <;> by_cases h2 : mapLen t.Config.Data > 0 <;>
      by_cases h3 : t.Size = 0 <;> by_cases h4 : t.Messages = 0 <;>
      simp [topic.MarshalJSON, mapSet, mapGet?, h1, h2, h3, h4, List.find?_cons, List.filter_cons,
        e1, e2, e3, e4, e5, e6, e7]

/-! ### `strconv.Atoi` on canonical decimal strings -/

theorem digitChar_digit (d : Nat) (h : d < 10) :
    (Nat.digitChar d).isDigit = true ∧ (Nat.digitChar d).toNat - 48 = d := by
  interval_cases d <;> decide

theorem isDigit_not_sign (c : Char) (h : c.isDigit = true) : c ≠ '+' ∧ c ≠ '-' := by
  constructor <;> rintro rfl <;> exact absurd h (by decide)

theorem toDigitsCore_append (fuel n : Nat) (ds : List Char) :
    Nat.toDigitsCore 10 fuel n ds = Nat.toDigitsCore 10 fuel n [] ++ ds := by
  induction fuel generalizing n ds with
  | zero => simp [Nat.toDigitsCore]
  | succ f ih =>
    unfold Nat.toDigitsCore
    by_cases h : n / 10 = 0
    · simp [h]
    · simp only [h, if_false]
      rw [ih (n / 10) [Nat.digitChar (n % 10)], ih (n / 10) (Nat.digitChar (n % 10) :: ds)]
      simp

theorem foldl_toDigitsCore (fuel : Nat) : ∀ n : Nat, n < fuel → n < 2 ^ 64 →
    (Nat.toDigitsCore 10 fuel n []).foldl parseUintStep (.ok 0) = .ok n := by
  induction fuel with
  | zero => intro n h; omega
  | succ f ih =>
    intro n hf hn
    unfold Nat.toDigitsCore
    have hd := digitChar_digit (n % 10) (Nat.mod_lt _ (by decide))
    by_cases h : n / 10 = 0
    · have hmod : n % 10 = n := by omega
      rw [hmod] at hd
      rw [if_pos h, hmod]
      simp only [List.foldl_cons, List.foldl_nil, parseUintStep, hd.1, hd.2, if_true]
      have h1 : ¬ ((0 : Nat) ≥ 1844674407370955162) := by omega
      have h2 : ¬ (0 * 10 + n > 2 ^ 64 - 1) := by omega
      simp only [h1, h2, if_false]
      congr 1
      omega
    · simp only [h, if_false]
      rw [toDigitsCore_append, List.foldl_append, ih (n / 10) (by omega) (by omega)]
      simp only [List.foldl_cons, List.foldl_nil, parseUintStep, hd.1, hd.2, if_true]
      have h1 : ¬ (n / 10 ≥ 1844674407370955162) := by omega
      have h2 : ¬ (n / 10 * 10 + n % 10 > 2 ^ 64 - 1) := by omega
      simp only [h1, h2, if_false]
      congr 1
      omega

theorem toDigitsCore_head (fuel n : Nat) (hf : 0 < fuel) :
    ∃ c rest, Nat.toDigitsCore 10 fuel n [] = c :: rest ∧ c.isDigit = true := by
  induction fuel generalizing n with
  | zero => omega
  | succ f ih =>
    unfold Nat.toDigitsCore
    by_cases h : n / 10 = 0
    · exact ⟨Nat.digitChar (n % 10), [], by simp [h],
        (digitChar_digit _ (Nat.mod_lt _ (by decide))).1⟩
    · simp only [h, if_false]
      rw [toDigitsCore_append]
      cases f with
      | zero =>
        simp [Nat.toDigitsCore]
        exact (digitChar_digit _ (Nat.mod_lt _ (by decide))).1
      | succ g =>
        obtain ⟨c, rest, e, hc⟩ := ih (n / 10) (by omega)
        exact ⟨c, rest ++ [Nat.digitChar (n % 10)], by rw [e]; rfl, hc⟩

theorem Atoi_toString (n : Nat) (hn : n < 2 ^ 63) : Atoi (toString n) = ((n : Int), false) := by
  have e : (toString n).toList = Nat.toDigitsCore 10 (n + 1) n [] := rfl
  obtain ⟨c, rest, hcr, hc⟩ := toDigitsCore_head (n + 1) n (by omega)
  have hfold := foldl_toDigitsCore (n + 1) n (by omega) (by omega)
  unfold Atoi
  rw [e, hcr]
  have hs := isDigit_not_sign c hc
  have hplus : (c == '+') = false := by simpa using hs.1
  have hneg : (c == '-') = false := by simpa using hs.2
  rw [hcr] at hfold
  simp only [hplus, hneg, Bool.or_self, Bool.false_eq_true, if_false, ParseUint, hfold]
  simp
  omega

theorem toString_nat_injective (i j : Nat) (hi : i < 2 ^ 63) (hj : j < 2 ^ 63)
    (h : toString i = toString j) : i = j := by
  have e := Atoi_toString i hi
  rw [h, Atoi_toString j hj] at e
  have e1 : (j : Int) = (i : Int) := congrArg Prod.fst e
  omega

/-! ### `fetchTopic` -/

theorem storeAt_eq_some (ps ps1 : List Partition) (i : Int) (x : Partition)
    (h : storeAt ps i x = some ps1) :
    0 ≤ i ∧ i < ps.length ∧ ps1 = ps.set i.toNat x := by
  unfold storeAt at h
  by_cases hb : 0 ≤ i ∧ i < ps.length
  · rw [if_pos hb] at h
    exact ⟨hb.1, hb.2, (Option.some.inj h).symm⟩
  · rw [if_neg hb] at h
    exact absurd h (by simp)

/-- With every index in range the loop does not panic and keeps the length. -/
theorem fetchLoop_some (zkGet : String → Option Partition) (tn : String)
    (l : List (String × Option (List Int))) :
    ∀ ps : List Partition, (∀ e ∈ l, 0 ≤ (Atoi e.1).1 ∧ (Atoi e.1).1 < ps.length) →
      ∃ ps1, fetchLoop zkGet tn l ps = some ps1 ∧ ps1.length = ps.length := by
  induction l with
  | nil => intro ps _; exact ⟨ps, rfl, rfl⟩
  | cons e rest ih =>
    intro ps hb
    obtain ⟨p, r⟩ := e
    have hrest : ∀ e ∈ rest, 0 ≤ (Atoi e.1).1 ∧ (Atoi e.1).1 < ps.length :=
      fun e he => hb e (List.mem_cons_of_mem _ he)
    have hhead := hb (p, r) (List.mem_cons_self _ _)
    unfold fetchLoop
    cases hg : zkGet (partitionPath tn p) with
    | none => exact ih ps hrest
    | some par =>
      simp only [storeAt, hhead, and_self, if_true]
      obtain ⟨ps1, h1, h2⟩ := ih (ps.set (Atoi p).1.toNat
        { par with Replicas := r, Metrics := some [] }) (by simpa using hrest)
      exact ⟨ps1, h1, by simpa using h2⟩

/-- A slot that no successful read targets keeps its content. -/
theorem fetchLoop_untouched (zkGet : String → Option Partition) (tn : String)
    (l : List (String × Option (List Int))) (j : Nat) :
    ∀ ps ps1 : List Partition, fetchLoop zkGet tn l ps = some ps1 →
      (∀ e ∈ l, (Atoi e.1).1 = (j : Int) → zkGet (partitionPath tn e.1) = none) →
      ps1[j]? = ps[j]? := by
  induction l with
  | nil =>
    intro ps ps1 h _
    simp only [fetchLoop] at h
    rw [Option.some.inj h]
  | cons e rest ih =>
    intro ps ps1 h hj
    obtain ⟨p, r⟩ := e
    have hrest : ∀ e ∈ rest, (Atoi e.1).1 = (j : Int) → zkGet (partitionPath tn e.1) = none :=
      fun e he => hj e (List.mem_cons_of_mem _ he)
    unfold fetchLoop at h
    cases hg : zkGet (partitionPath tn p) with
    | none =>
      rw [hg] at h
      exact ih ps ps1 h hrest
    | some par =>
      rw [hg] at h
      simp only at h
      cases hs : storeAt ps (Atoi p).1 { par with Replicas := r, Metrics := some [] } with
      | none => rw [hs] at h; exact absurd h (by simp)
      | some ps2 =>
        rw [hs] at h
        simp only at h
        obtain ⟨h0, _, hset⟩ := storeAt_eq_some _ _ _ _ hs
        have hne : (Atoi p).1 ≠ (j : Int) := by
          intro heq
          have := hj (p, r) (List.mem_cons_self _ _) heq
          rw [hg] at this
          exact absurd this (by simp)
        have hne2 : (Atoi p).1.toNat ≠ j := by omega
        rw [ih ps2 ps1 h hrest, hset, List.getElem?_set_ne hne2]

/-- With distinct indices, the slot of an entry whose read succeeds holds what was read. -/
theorem fetchLoop_stored (zkGet : String → Option Partition) (tn : String)
    (l : List (String × Option (List Int))) :
    ∀ ps ps1 : List Partition, fetchLoop zkGet tn l ps = some ps1 →
      (l.map (fun e => (Atoi e.1).1)).Nodup →
      ∀ e ∈ l, ∀ par, zkGet (partitionPath tn e.1) = some par →
        ps1[(Atoi e.1).1.toNat]? = some { par with Replicas := e.2, Metrics := some [] } := by
  induction l with
  | nil => intro ps ps1 _ _ e he; exact absurd he (List.not_mem_nil _)
  | cons e0 rest ih =>
    intro ps ps1 h hnd e he par hpar
    obtain ⟨p, r⟩ := e0
    rw [List.map_cons, List.nodup_cons] at hnd
    obtain ⟨hnot, hnd1⟩ := hnd
    unfold fetchLoop at h
    rcases List.mem_cons.1 he with rfl | hin
    · rw [hpar] at h
      simp only at h
      cases hs : storeAt ps (Atoi p).1 { par with Replicas := r, Metrics := some [] } with
      | none => rw [hs] at h; exact absurd h (by simp)
      | some ps2 =>
        rw [hs] at h
        simp only at h
        obtain ⟨h1, h2, hset⟩ := storeAt_eq_some _ _ _ _ hs
        have hkeep := fetchLoop_untouched zkGet tn rest (Atoi p).1.toNat ps2 ps1 h (by
          intro e1 he1 heq
          exfalso
          apply hnot
          have : (Atoi e1.1).1 = (Atoi p).1 := by omega
          rw [← this]
          exact List.mem_map_of_mem (fun e => (Atoi e.1).1) he1)
        rw [hkeep, hset, List.getElem?_set_self (by omega)]
    · cases hg : zkGet (partitionPath tn p) with
      | none =>
        rw [hg] at h
        exact ih ps ps1 h hnd1 e hin par hpar
      | some par0 =>
        rw [hg] at h
        simp only at h
        cases hs : storeAt ps (Atoi p).1 { par0 with Replicas := r, Metrics := some [] } with
        | none => rw [hs] at h; exact absurd h (by simp)
        | some ps2 =>
          rw [hs] at h
          simp only at h
          exact ih ps2 ps1 h hnd1 e hin par hpar

theorem mem_assignment (n : Nat) (repl : Nat → Option (List Int))
    (e : String × Option (List Int)) :
    e ∈ assignment n repl ↔ ∃ i, i < n ∧ e = (toString i, repl i) := by
  unfold assignment
  rw [List.mem_map]
  constructor
  · rintro ⟨i, hi, rfl⟩
    exact ⟨i, List.mem_range.1 hi, rfl⟩
  · rintro ⟨i, hi, rfl⟩
    exact ⟨i, List.mem_range.2 hi, rfl⟩

theorem assignment_indices (n : Nat) (hn : n < 2 ^ 63) (repl : Nat → Option (List Int)) :
    (assignment n repl).map (fun e => (Atoi e.1).1) = (List.range n).map (fun i : Nat => (i : Int)) := by
  unfold assignment
  rw [List.map_map]
  apply List.map_congr_left
  intro i hi
  have hi1 := List.mem_range.1 hi
  simp only [Function.comp]
  rw [Atoi_toString i (by omega)]

theorem assignment_indices_nodup (n : Nat) (hn : n < 2 ^ 63) (repl : Nat → Option (List Int)) :
    ((assignment n repl).map (fun e => (Atoi e.1).1)).Nodup := by
  rw [assignment_indices n hn repl]
  exact (List.nodup_range n).map Nat.cast_injective

theorem assignment_keys_nodup (n : Nat) (hn : n < 2 ^ 63) (repl : Nat → Option (List Int)) :
    ((assignment n repl).map Prod.fst).Nodup := by
  have h := assignment_indices_nodup n hn repl
  have e : (assignment n repl).map (fun e => (Atoi e.1).1) =
      ((assignment n repl).map Prod.fst).map (fun k => (Atoi k).1) := by
    rw [List.map_map]
    rfl
  rw [e] at h
  exact List.Nodup.of_map _ h

theorem keysLen_of_perm (n : Nat) (hn : n < 2 ^ 63) (repl : Nat → Option (List Int))
    (order : List (String × Option (List Int))) (horder : order.Perm (assignment n repl)) :
    keysLen order = n := by
  unfold keysLen
  have hp : (order.map Prod.fst).Perm ((assignment n repl).map Prod.fst) := horder.map _
  have hnd : (order.map Prod.fst).Nodup := hp.nodup_iff.2 (assignment_keys_nodup n hn repl)
  rw [hnd.dedup, List.length_map, horder.length_eq]
  simp [assignment]

/-- The topic `fetchTopic` returns for the assignment with keys "0" .. "n-1", visited in
any order: slot `i` holds what the state read of partition `i` yields. -/
theorem fetchTopic_assignment (zkGet : String → Option Partition) (tn : String) (n : Nat)
    (hn : n < 2 ^ 63) (repl : Nat → Option (List Int))
    (order : List (String × Option (List Int))) (horder : order.Perm (assignment n repl)) :
    fetchTopic ({ Partitions := order }, none) zkGet tn = .returned
      ({ Name := tn
         Partitions := (List.range n).map (fun i => slotOf zkGet tn (toString i) (repl i))
         Config := { Version := 0, Data := none }
         Deleted := false
         Metrics := some [] }, none) := by
  have hlen := keysLen_of_perm n hn repl order horder
  have hmem : ∀ e ∈ order, ∃ i, i < n ∧ e = (toString i, repl i) :=
    fun e he => (mem_assignment n repl e).1 (horder.mem_iff.1 he)
  have hbounds : ∀ e ∈ order, 0 ≤ (Atoi e.1).1 ∧
      (Atoi e.1).1 < (List.replicate n Partition.zero).length := by
    intro e he
    obtain ⟨i, hi, rfl⟩ := hmem e he
    simp only [Atoi_toString i (by omega), List.length_replicate]
    omega
  have hnd : (order.map (fun e => (Atoi e.1).1)).Nodup :=
    (horder.map _).nodup_iff.2 (assignment_indices_nodup n hn repl)
  obtain ⟨ps1, hloop, hlen1⟩ := fetchLoop_some zkGet tn order _ hbounds
  rw [List.length_replicate] at hlen1
  have hps : ps1 = (List.range n).map (fun i => slotOf zkGet tn (toString i) (repl i)) := by
    apply List.ext_getElem?
    intro j
    by_cases hj : j < n
    · rw [List.getElem?_map, List.getElem?_range hj, Option.map_some']
      have hin : (toString j, repl j) ∈ order :=
        horder.mem_iff.2 ((mem_assignment n repl _).2 ⟨j, hj, rfl⟩)
      cases hg : zkGet (partitionPath tn (toString j)) with
      | some par =>
        have h := fetchLoop_stored zkGet tn order _ ps1 hloop hnd _ hin par hg
        simp only [Atoi_toString j (by omega), Int.toNat_ofNat] at h
        rw [h]
        simp [slotOf, hg]
      | none =>
        have h := fetchLoop_untouched zkGet tn order j _ ps1 hloop (by
          intro e he heq
          obtain ⟨i, hi, rfl⟩ := hmem e he
          simp only [Atoi_toString i (by omega)] at heq
          have : i = j := by omega
          rw [this]
          exact hg)
        rw [h, List.getElem?_replicate_of_lt hj]
        simp [slotOf, hg]
    · rw [List.getElem?_eq_none (by omega), List.getElem?_eq_none (by simp; omega)]
  unfold fetchTopic
  simp only [hlen, hloop, hps]

/-- C4: for an assignment document whose keys are exactly the decimal strings
"0" .. "n-1", visited in any order, and state reads that all succeed, `fetchTopic`
returns a nil error and a topic named `topicName` with exactly `n` partitions whose
partition `i` carries the fields read from the state document of partition `i`, the
replica list bound to key `i` and an empty non-nil metrics map; the result is the same
for every visiting order. -/
theorem fetchTopic_index_is_partition_number (topicName : String) (n : Nat) (hn : n < 2 ^ 63)
    (repl : Nat → Option (List Int)) (zkGet : String → Option Partition)
    (state : Nat → Partition) (order : List (String × Option (List Int)))
    (horder : order.Perm (assignment n repl))
    (hstate : ∀ i, i < n → zkGet (partitionPath topicName (toString i)) = some (state i)) :
    ∃ t : topic,
      fetchTopic ({ Partitions := order }, none) zkGet topicName = .returned (t, none)
      ∧ t.Name = topicName
      ∧ t.Partitions.length = n
      ∧ (∀ i, i < n →
          t.Partitions[i]? = some { state i with Replicas := repl i, Metrics := some [] })
      ∧ fetchTopic ({ Partitions := assignment n repl }, none) zkGet topicName =
          .returned (t, none) := by
  refine ⟨_, fetchTopic_assignment zkGet topicName n hn repl order horder, rfl, by simp, ?_,
    fetchTopic_assignment zkGet topicName n hn repl _ (List.Perm.refl _)⟩
  intro i hi
  simp only [List.getElem?_map, List.getElem?_range hi, Option.map_some', slotOf, hstate i hi]

/-- C4 at two partitions visited in the order "1", "0". -/
theorem fetchTopic_index_is_partition_number_witness :
    ∃ t : topic,
      fetchTopic ({ Partitions := [("1", some [1, 2]), ("0", some [1, 2])] }, none)
          allReadable "orders" = .returned (t, none)
      ∧ t.Name = "orders"
      ∧ t.Partitions.length = 2
      ∧ (∀ i, i < 2 → t.Partitions[i]? =
          some { stateDoc 1 [1, 2] with Replicas := some [1, 2], Metrics := some [] })
      ∧ fetchTopic ({ Partitions := assignment 2 twoReplicas }, none) allReadable "orders" =
          .returned (t, none) :=
  fetchTopic_index_is_partition_number "orders" 2 (by decide) twoReplicas allReadable
    (fun _ => stateDoc 1 [1, 2]) [("1", some [1, 2]), ("0", some [1, 2])]
    (List.Perm.swap _ _ []) (fun _ _ => rfl)

/-- C5: for an assignment with keys "0" .. "n-1" and a set `F` of partitions whose state
document cannot be read, `fetchTopic` still returns a nil error and `n` partitions; every
partition outside `F` is the one returned when no read fails, and every partition in `F`
is left as the zero-valued `Partition`. -/
theorem fetchTopic_partition_failure_is_local (topicName : String) (n : Nat) (hn : n < 2 ^ 63)
    (repl : Nat → Option (List Int)) (zkGet zkGetAll : String → Option Partition)
    (F : Finset Nat) (order : List (String × Option (List Int)))
    (horder : order.Perm (assignment n repl))
    (hall : ∀ i, i < n → ∃ par, zkGetAll (partitionPath topicName (toString i)) = some par)
    (hF : ∀ i, i < n → i ∈ F → zkGet (partitionPath topicName (toString i)) = none)
    (hrest : ∀ i, i < n → i ∉ F →
      zkGet (partitionPath topicName (toString i)) =
        zkGetAll (partitionPath topicName (toString i))) :
    ∃ t tAll : topic,
      fetchTopic ({ Partitions := order }, none) zkGet topicName = .returned (t, none)
      ∧ fetchTopic ({ Partitions := order }, none) zkGetAll topicName = .returned (tAll, none)
      ∧ t.Partitions.length = n
      ∧ tAll.Partitions.length = n
      ∧ (∀ i, i < n → i ∉ F →
          t.Partitions[i]? = tAll.Partitions[i]? ∧ t.Partitions[i]? ≠ some Partition.zero)
      ∧ (∀ i, i < n → i ∈ F → t.Partitions[i]? = some Partition.zero) := by
  refine ⟨_, _, fetchTopic_assignment zkGet topicName n hn repl order horder,
    fetchTopic_assignment zkGetAll topicName n hn repl order horder, by simp, by simp, ?_, ?_⟩
  · intro i hi hnot
    obtain ⟨par, hpar⟩ := hall i hi
    simp only [List.getElem?_map, List.getElem?_range hi, Option.map_some', slotOf,
      hrest i hi hnot, hpar]
    refine ⟨trivial, ?_⟩
    intro h
    have h1 := congrArg Partition.Metrics (Option.some.inj h)
    simp [Partition.zero] at h1
  · intro i hi hin
    simp only [List.getElem?_map, List.getElem?_range hi, Option.map_some', slotOf, hF i hi hin]

/-- C5 at three partitions of `orders` with the state of partition 1 unreadable. -/
theorem fetchTopic_partition_failure_is_local_witness :
    ∃ t tAll : topic,
      fetchTopic ({ Partitions := [("2", some [1, 2]), ("1", some [1, 2]), ("0", some [1, 2])] },
          none) oneUnreadable "orders" = .returned (t, none)
      ∧ fetchTopic ({ Partitions := [("2", some [1, 2]), ("1", some [1, 2]), ("0", some [1, 2])] },
          none) allReadable "orders" = .returned (tAll, none)
      ∧ t.Partitions.length = 3
      ∧ tAll.Partitions.length = 3
      ∧ (∀ i, i < 3 → i ∉ ({1} : Finset Nat) →
          t.Partitions[i]? = tAll.Partitions[i]? ∧ t.Partitions[i]? ≠ some Partition.zero)
      ∧ (∀ i, i < 3 → i ∈ ({1} : Finset Nat) → t.Partitions[i]? = some Partition.zero) :=
  fetchTopic_partition_failure_is_local "orders" 3 (by decide) twoReplicas oneUnreadable
    allReadable {1} [("2", some [1, 2]), ("1", some [1, 2]), ("0", some [1, 2])]
    (by decide)
    (fun _ _ => ⟨_, rfl⟩)
    (by
      intro i _ hin
      rw [Finset.mem_singleton.1 hin]
      decide)
    (by
      intro i hi hnot
      have hne : i ≠ 1 := fun h => hnot (Finset.mem_singleton.2 h)
      have h02 : i = 0 ∨ i = 2 := by omega
      rcases h02 with rfl | rfl <;> decide)

theorem mem_storeIndices (zkGet : String → Option Partition) (tn : String)
    (entries : List (String × Option (List Int))) (ki : String × Int)
    (h : ki ∈ storeIndices zkGet tn entries) :
    ∃ e ∈ entries, ki = (e.1, (Atoi e.1).1) := by
  unfold storeIndices at h
  obtain ⟨e, he, rfl⟩ := List.mem_map.1 h
  exact ⟨e, (List.mem_filter.1 he).1, rfl⟩

/-- C10 (amended): for an assignment document whose keys are exactly the decimal strings
"0" .. "n-1", visited in any order and whatever the state reads yield, every index
`Atoi(key)` at which `fetchTopic` stores a partition satisfies
`0 <= i < len(assignment)`, no two distinct keys are stored at the same index, and
`fetchTopic` does not panic. -/
theorem fetchTopic_stores_in_range_for_decimal_keys (topicName : String) (n : Nat)
    (hn : n < 2 ^ 63) (repl : Nat → Option (List Int)) (zkGet : String → Option Partition)
    (order : List (String × Option (List Int))) (horder : order.Perm (assignment n repl)) :
    (∀ ki ∈ storeIndices zkGet topicName order, 0 ≤ ki.2 ∧ ki.2 < (keysLen order : Int))
    ∧ (∀ k1 ∈ storeIndices zkGet topicName order, ∀ k2 ∈ storeIndices zkGet topicName order,
        k1.1 ≠ k2.1 → k1.2 ≠ k2.2)
    ∧ fetchTopic ({ Partitions := order }, none) zkGet topicName ≠ .panicked := by
  have hmem : ∀ e ∈ order, ∃ i, i < n ∧ e = (toString i, repl i) :=
    fun e he => (mem_assignment n repl e).1 (horder.mem_iff.1 he)
  refine ⟨?_, ?_, ?_⟩
  · intro ki hki
    obtain ⟨e, he, rfl⟩ := mem_storeIndices _ _ _ _ hki
    obtain ⟨i, hi, rfl⟩ := hmem e he
    rw [keysLen_of_perm n hn repl order horder]
    simp only [Atoi_toString i (by omega)]
    omega
  · intro k1 h1 k2 h2 hne heq
    obtain ⟨e1, he1, rfl⟩ := mem_storeIndices _ _ _ _ h1
    obtain ⟨e2, he2, rfl⟩ := mem_storeIndices _ _ _ _ h2
    obtain ⟨i, hi, rfl⟩ := hmem e1 he1
    obtain ⟨j, hj, rfl⟩ := hmem e2 he2
    simp only [Atoi_toString i (by omega), Atoi_toString j (by omega)] at heq
    have hij : i = j := by omega
    exact hne (by rw [hij])
  · rw [fetchTopic_assignment zkGet topicName n hn repl order horder]
    exact fun h => Outcome.noConfusion h

/-- C10 (amended) at three partitions visited in decreasing order, one state unreadable. -/
theorem fetchTopic_stores_in_range_for_decimal_keys_witness :
    (∀ ki ∈ storeIndices oneUnreadable "orders"
        [("2", some [1, 2]), ("1", some [1, 2]), ("0", some [1, 2])],
        0 ≤ ki.2 ∧ ki.2 <
          (keysLen [("2", some [1, 2]), ("1", some [1, 2]), ("0", (some [1, 2] : Option (List Int)))] : Int))
    ∧ (∀ k1 ∈ storeIndices oneUnreadable "orders"
          [("2", some [1, 2]), ("1", some [1, 2]), ("0", some [1, 2])],
        ∀ k2 ∈ storeIndices oneUnreadable "orders"
          [("2", some [1, 2]), ("1", some [1, 2]), ("0", some [1, 2])],
        k1.1 ≠ k2.1 → k1.2 ≠ k2.2)
    ∧ fetchTopic ({ Partitions := [("2", some [1, 2]), ("1", some [1, 2]), ("0", some [1, 2])] },
        none) oneUnreadable "orders" ≠ .panicked :=
  fetchTopic_stores_in_range_for_decimal_keys "orders" 3 (by decide) twoReplicas oneUnreadable
    [("2", some [1, 2]), ("1", some [1, 2]), ("0", some [1, 2])] (by decide)

/-- C10 as stated fails: for the assignment with the single key "5" the store index is 5
while the slice has length 1, and `fetchTopic` panics; for the keys "0" and "00" both
stores go to index 0. -/
theorem fetchTopic_store_index_out_of_range :
    storeIndices allReadable "orders" [("5", some [1, 2])] = [("5", 5)]
    ∧ keysLen [("5", (some [1, 2] : Option (List Int)))] = 1
    ∧ fetchTopic ({ Partitions := [("5", some [1, 2])] }, none) allReadable "orders" = .panicked
    ∧ storeIndices allReadable "orders" [("0", some [1, 2]), ("00", some [3, 4])] =
        [("0", 0), ("00", 0)]
    ∧ keysLen [("0", some [1, 2]), ("00", (some [3, 4] : Option (List Int)))] = 2 := by
  refine ⟨by decide, by decide, rfl, by decide, by decide⟩

end Store
